import Mathlib

/-!
Verification development for the qa-companion document-ingestion utility.

The Python sources are shallowly embedded: each `def` below mirrors one
function (or one loop body) of the repository.  External effects are made
explicit — the OCR engine's output is an input (parallel word/confidence
arrays, zipped into a list of records), the filesystem is a `Finset String`
of existing paths threaded through the functions, and fallible library
calls are `Except` values supplied by the caller.
-/

namespace QaCompanion

/-- One entry of the parallel arrays returned by `pytesseract.image_to_data`
(`data["text"]`, `data["conf"]`, and the bounding-box arrays), zipped. -/
structure TessWord where
  text : String
  conf : Int
  left : Int
  top : Int
  width : Int
  height : Int
  deriving Repr, DecidableEq

/-- One element of `word_details` built by `OCRProcessor.process_image`. -/
structure WordDetail where
  word : String
  confidence : Int
  left : Int
  top : Int
  width : Int
  height : Int
  deriving Repr, DecidableEq

/-- The dictionary returned by `OCRProcessor.process_image`
(src/src/document_loader/ocr_processor.py).  Python's float mean is
modelled exactly as a rational. -/
structure OCRResult where
  image_path : String
  extracted_text : String
  word_count : Nat
  char_count : Nat
  word_details : List WordDetail
  has_text : Bool
  average_confidence : ℚ
  error : Option String
  deriving Repr, DecidableEq

/-- Python `str.strip()`: drop leading and trailing whitespace (the ASCII
whitespace set; Python also strips a few rarer code points, which no input
here contains). -/
def pyStrip (s : String) : String :=
  String.mk (((s.toList.dropWhile Char.isWhitespace).reverse.dropWhile
    Char.isWhitespace).reverse)

/-- Python `str.lower()` (ASCII case mapping). -/
def pyLower (s : String) : String :=
  String.mk (s.toList.map Char.toLower)

/-- The word-collection loop of `OCRProcessor.process_image` (lines 45-56):
`for i, (word, conf) in enumerate(zip(data["text"], data["conf"])):
   if int(conf) > self.min_confidence and word.strip(): ...`
accumulating `valid_words` and `word_details` in engine order. -/
def collectValid (min_confidence : Int) : List TessWord → List String × List WordDetail
  | [] => ([], [])
  | w :: rest =>
    let out := collectValid min_confidence rest
    if min_confidence < w.conf ∧ pyStrip w.text ≠ "" then
      (pyStrip w.text :: out.1,
       { word := pyStrip w.text, confidence := w.conf, left := w.left, top := w.top,
         width := w.width, height := w.height } :: out.2)
    else out

/-- Success path of `OCRProcessor.process_image` (ocr_processor.py lines 32-68),
given the engine output `data`. -/
def process_image (min_confidence : Int) (image_path : String)
    (data : List TessWord) : OCRResult :=
  let valid_words := (collectValid min_confidence data).1
  let word_details := (collectValid min_confidence data).2
  let extracted_text := String.intercalate " " valid_words
  { image_path := image_path
  , extracted_text := extracted_text
  , word_count := valid_words.length
  , char_count := extracted_text.length
  , word_details := word_details
  , has_text := decide (valid_words.length > 0)
  , average_confidence :=
      if word_details = [] then 0
      else ((word_details.map (fun d => d.confidence)).sum : ℚ) / (word_details.length : ℚ)
  , error := none }

/-- Exception path of `OCRProcessor.process_image` (lines 70-80): any raised
error yields a zero-valued result carrying the error message. -/
def process_image_failed (image_path : String) (e : String) : OCRResult :=
  { image_path := image_path, extracted_text := "", word_count := 0, char_count := 0,
    word_details := [], has_text := false, average_confidence := 0, error := some e }

/-- `OCRProcessor.process_image` with the engine call's outcome made explicit. -/
def process_image_run (min_confidence : Int) (image_path : String)
    (engine : Except String (List TessWord)) : OCRResult :=
  match engine with
  | .ok data => process_image min_confidence image_path data
  | .error e => process_image_failed image_path e

/-- The list comprehension of `PDFLoader._run_ocr_on_image`
(src/src/document_loader/pdf_loader.py lines 188-192):
`[word.strip() for word, conf in zip(data["text"], data["conf"])
  if int(conf) > min_confidence and word.strip()]`. -/
def run_ocr_words (min_confidence : Int) (data : List TessWord) : List String :=
  data.filterMap (fun w =>
    if min_confidence < w.conf ∧ pyStrip w.text ≠ "" then some (pyStrip w.text) else none)

/-- Success path of `PDFLoader._run_ocr_on_image` (pdf_loader.py lines 183-194). -/
def run_ocr_on_image (min_confidence : Int) (data : List TessWord) : String :=
  String.intercalate " " (run_ocr_words min_confidence data)

/-- `PDFLoader._run_ocr_on_image` including its except branch (lines 196-198):
any OCR failure is caught and the empty string returned. -/
def run_ocr_on_image_caught (min_confidence : Int)
    (engine : Except String (List TessWord)) : String :=
  match engine with
  | .ok data => run_ocr_on_image min_confidence data
  | .error _ => ""

/-- Spec-side acceptance set: the engine words with confidence strictly above
the threshold and non-empty trimmed text, in engine-reported order. -/
def specAcceptedWords (min_confidence : Int) (data : List TessWord) : List TessWord :=
  data.filter (fun w => decide (min_confidence < w.conf ∧ pyStrip w.text ≠ ""))

/-- The keep-condition of `OCRProcessor.filter_useful_images`
(ocr_processor.py lines 117-119). -/
def usefulResult (min_words min_chars : Nat) (r : OCRResult) : Prop :=
  r.has_text = true ∧ min_words ≤ r.word_count ∧ min_chars ≤ r.char_count

instance (min_words min_chars : Nat) (r : OCRResult) :
    Decidable (usefulResult min_words min_chars r) := by
  unfold usefulResult; infer_instance

/-- Default thresholds of `filter_useful_images` (line 102). -/
def filterUsefulDefaultMinWords : Nat := 3

/-- Default thresholds of `filter_useful_images` (line 102). -/
def filterUsefulDefaultMinChars : Nat := 10

/-- `OCRProcessor.filter_useful_images` (ocr_processor.py lines 101-131).
The filesystem is a `Finset String` of existing paths; Python's
`image_path.unlink()` (with its existence pre-check) is `Finset.erase`. -/
def filter_useful_images (min_words min_chars : Nat) :
    List OCRResult → Finset String → List OCRResult × Finset String
  | [], fs => ([], fs)
  | r :: rest, fs =>
    if usefulResult min_words min_chars r then
      let out := filter_useful_images min_words min_chars rest fs
      (r :: out.1, out.2)
    else
      filter_useful_images min_words min_chars rest
        (if r.image_path ∈ fs then fs.erase r.image_path else fs)

/-- The configuration constants read by the loader and pipeline (config.py). -/
structure Config where
  PDF_DATA_PATH : String
  IMAGE_OUTPUT_PATH : String
  PROCESSED_DATA_PATH : String
  MAX_PAGES_PER_PDF : Option Nat
  MIN_IMAGE_WIDTH : Nat
  MIN_IMAGE_HEIGHT : Nat
  deriving Repr, DecidableEq

/-- The values in config.py (`MAX_PAGES_PER_PDF = None`). -/
def defaultConfig : Config :=
  { PDF_DATA_PATH := "./data/pdfs"
  , IMAGE_OUTPUT_PATH := "./data/images"
  , PROCESSED_DATA_PATH := "./data/processed"
  , MAX_PAGES_PER_PDF := none
  , MIN_IMAGE_WIDTH := 100
  , MIN_IMAGE_HEIGHT := 100 }

/-- `documents[:max_pages] if max_pages else documents` (pdf_loader.py line
70); Python truthiness makes both `None` and `0` mean "all pages". -/
def pagesToProcess (max_pages : Option Nat) (documents : List String) : List String :=
  match max_pages with
  | some m => if m ≠ 0 then documents.take m else documents
  | none => documents

/-- `pathlib.PurePath.name`: the final path component (everything after the
last slash; the paths handled here have no trailing slash). -/
def pathName (p : String) : String :=
  String.mk ((p.toList.reverse.takeWhile (fun c => c ≠ '/')).reverse)

/-- Python `str.rfind('.')` on a list of characters, as an `Option`
instead of the -1 sentinel. -/
def lastDotPos : List Char → Option Nat
  | [] => none
  | c :: rest =>
    match lastDotPos rest with
    | some i => some (i + 1)
    | none => if c = '.' then some 0 else none

/-- `pathlib.PurePath.suffix`: `name[i:]` where `i = name.rfind('.')`, when
`0 < i < len(name) - 1`; otherwise the empty string. -/
def pathSuffix (p : String) : String :=
  let n := (pathName p).toList
  match lastDotPos n with
  | none => ""
  | some i => if 0 < i ∧ i < n.length - 1 then String.mk (n.drop i) else ""

/-- `pathlib.PurePath.stem`: `name[:i]` under the same condition as
`pathSuffix`; otherwise the whole name. -/
def pathStem (p : String) : String :=
  let n := (pathName p).toList
  match lastDotPos n with
  | none => String.mk n
  | some i => if 0 < i ∧ i < n.length - 1 then String.mk (n.take i) else String.mk n

/-- The kinds of LangChain `Document` the loader builds (`metadata["type"]`). -/
inductive DocKind
  | text
  | image_ocr
  deriving Repr, DecidableEq

/-- A LangChain `Document` as built by `PDFLoader`: `page_content` plus the
metadata keys the loader sets; `image_path` is present only on image docs. -/
structure Document where
  page_content : String
  source : String
  page : Nat
  type : DocKind
  char_count : Nat
  image_path : Option String
  deriving Repr, DecidableEq

/-- The page loop of `PDFLoader._load_text_with_pypdf` (pdf_loader.py lines
72-84), keeping only pages whose content is non-empty after stripping; the
enumeration index advances on every page. -/
def textDocsLoop (pdf_path : String) : List String → Nat → List Document
  | [], _ => []
  | content :: rest, i =>
    if pyStrip content ≠ "" then
      { page_content := content, source := pdf_path, page := i + 1, type := .text,
        char_count := content.length, image_path := none }
        :: textDocsLoop pdf_path rest (i + 1)
    else textDocsLoop pdf_path rest (i + 1)

/-- `PDFLoader._load_text_with_pypdf` (lines 54-90); the `PyPDFLoader.load`
outcome (per-page contents, or an exception yielding `[]`) is an input. -/
def load_text_with_pypdf (cfg : Config) (pdf_path : String)
    (loaded : Except String (List String)) : List Document :=
  match loaded with
  | .error _ => []
  | .ok documents => textDocsLoop pdf_path (pagesToProcess cfg.MAX_PAGES_PER_PDF documents) 0

/-- One embedded raster image of a PDF page: pixel size, channel data, and
the outcomes of the fallible pixmap/save step and of the OCR engine call. -/
structure PdfImage where
  width : Nat
  height : Nat
  n : Nat
  alpha : Nat
  pixmap_save : Except String Unit
  ocr : Except String (List TessWord)

/-- `output_folder / f"{pdf_name}_page-{page_num+1}_img-{img_index}.png"`
(pdf_loader.py lines 130-131). -/
def imageFilePath (cfg : Config) (pdf_name : String) (page_num img_index : Nat) : String :=
  cfg.IMAGE_OUTPUT_PATH ++ "/" ++ pdf_name ++ "_page-" ++ toString (page_num + 1)
    ++ "_img-" ++ toString img_index ++ ".png"

/-- Body of the per-image loop of `PDFLoader._load_images_with_ocr`
(pdf_loader.py lines 118-163): size filter, save (the RGB/Gray and the
CMYK-conversion branches both save to `img_path`; the colorspace change is
not observable here), OCR, and the keep-or-delete decision.  A failure of
the pixmap/save step is the inner `except`: warn and continue. -/
def process_pdf_image (cfg : Config) (pdf_path : String) (page_num img_index : Nat)
    (img : PdfImage) (fs : Finset String) : Option Document × Finset String :=
  if img.width < cfg.MIN_IMAGE_WIDTH ∨ img.height < cfg.MIN_IMAGE_HEIGHT then
    (none, fs)
  else
    match img.pixmap_save with
    | .error _ => (none, fs)
    | .ok _ =>
      let img_path := imageFilePath cfg (pathStem pdf_path) page_num img_index
      let fs1 := insert img_path fs
      let ocr_text := run_ocr_on_image_caught 50 img.ocr
      if pyStrip ocr_text ≠ "" then
        (some { page_content := ocr_text, source := pdf_path, page := page_num + 1,
                type := .image_ocr, char_count := ocr_text.length,
                image_path := some img_path }, fs1)
      else
        (none, if img_path ∈ fs1 then fs1.erase img_path else fs1)

/-- `for img_index, img in enumerate(images, start=1)` (line 118). -/
def pageImagesLoop (cfg : Config) (pdf_path : String) (page_num : Nat) :
    List PdfImage → Nat → Finset String → List Document × Finset String
  | [], _, fs => ([], fs)
  | img :: rest, idx, fs =>
    let step := process_pdf_image cfg pdf_path page_num idx img fs
    let out := pageImagesLoop cfg pdf_path page_num rest (idx + 1) step.2
    (match step.1 with
     | some d => d :: out.1
     | none => out.1, out.2)

/-- `for page_num in range(num_pages_to_process)` (line 114). -/
def pdfPagesLoop (cfg : Config) (pdf_path : String) :
    List (List PdfImage) → Nat → Finset String → List Document × Finset String
  | [], _, fs => ([], fs)
  | imgs :: rest, page_num, fs =>
    let step := pageImagesLoop cfg pdf_path page_num imgs 1 fs
    let out := pdfPagesLoop cfg pdf_path rest (page_num + 1) step.2
    (step.1 ++ out.1, out.2)

/-- `PDFLoader._load_images_with_ocr` (lines 92-170); the fitz document is a
per-page list of embedded images; opening it may fail (outer except, `[]`).
`num_pages_to_process = min(max_pages, len(doc)) if max_pages else len(doc)`
with Python truthiness on `max_pages`. -/
def load_images_with_ocr (cfg : Config) (pdf_path : String)
    (pdf : Except String (List (List PdfImage))) (fs : Finset String) :
    List Document × Finset String :=
  match pdf with
  | .error _ => ([], fs)
  | .ok pages =>
    let num_pages_to_process :=
      match cfg.MAX_PAGES_PER_PDF with
      | some m => if m ≠ 0 then min m pages.length else pages.length
      | none => pages.length
    pdfPagesLoop cfg pdf_path (pages.take num_pages_to_process) 0 fs

/-- The dictionary returned by `PDFLoader.load_pdf` (pdf_loader.py 45-52). -/
structure LoadPdfResult where
  file_path : String
  file_name : String
  documents : List Document
  text_document_count : Nat
  image_document_count : Nat
  total_document_count : Nat
  deriving Repr, DecidableEq

/-- `PDFLoader.load_pdf` (pdf_loader.py lines 20-52): text extraction, then
image extraction with OCR, then the merged document list. -/
def load_pdf (cfg : Config) (pdf_path : String)
    (textLoad : Except String (List String))
    (imageLoad : Except String (List (List PdfImage)))
    (fs : Finset String) : LoadPdfResult × Finset String :=
  let text_documents := load_text_with_pypdf cfg pdf_path textLoad
  let imgOut := load_images_with_ocr cfg pdf_path imageLoad fs
  let all_documents := text_documents ++ imgOut.1
  ({ file_path := pdf_path
   , file_name := pathStem pdf_path
   , documents := all_documents
   , text_document_count := text_documents.length
   , image_document_count := imgOut.1.length
   , total_document_count := all_documents.length }, imgOut.2)

/-- Models Python `round(x, 2)`: the float rounding is abstracted as exact
rational rounding to the nearest hundredth, ties to even. -/
def roundTo2 (x : ℚ) : ℚ :=
  let f : ℤ := Rat.floor (x * 100)
  let r := x * 100 - (f : ℚ)
  if r < 1 / 2 then (f : ℚ) / 100
  else if 1 / 2 < r then ((f : ℚ) + 1) / 100
  else if f % 2 = 0 then (f : ℚ) / 100 else ((f : ℚ) + 1) / 100

/-- The observable outcome of the `os`/`pathlib` queries `get_file_info`
makes about one path: existence, file-ness, the `stat` call (which may
raise), and `os.access(..., R_OK)`. -/
structure FsFileStat where
  path : String
  present : Bool
  is_file : Bool
  stat_ok : Bool
  size_bytes : Nat
  mtime : Int
  readable : Bool
  deriving Repr, DecidableEq

/-- The file-information record built by `get_file_info`
(src/src/utils/file_utils.py lines 70-78). -/
structure FileRecord where
  path : String
  name : String
  extension : String
  size_bytes : Nat
  size_mb : ℚ
  modified : Int
  is_readable : Bool
  deriving Repr, DecidableEq

/-- `get_file_info` (file_utils.py lines 39-84): `None` on a missing path,
a non-file, an extension outside the lower-cased allow-list, or a stat
error; an empty `expected_extensions` list skips the extension check
(Python truthiness of the `None` default). -/
def get_file_info (st : FsFileStat) (expected_extensions : List String) : Option FileRecord :=
  if st.present = false then none
  else if st.is_file = false then none
  else if expected_extensions ≠ [] ∧
      pyLower (pathSuffix st.path) ∉ expected_extensions.map (fun e => pyLower e) then none
  else if st.stat_ok = false then none
  else some
    { path := st.path
    , name := pathName st.path
    , extension := pathSuffix st.path
    , size_bytes := st.size_bytes
    , size_mb := roundTo2 ((st.size_bytes : ℚ) / (1024 * 1024))
    , modified := st.mtime
    , is_readable := st.readable }

/-- `IngestionPipeline.confirm_processing` (pipeline.py lines 82-110).  Every
branch of the `while True` loop returns on the first answer, so exactly one
operator answer is ever consumed; the final `else` returns `True` (the
re-prompt `print` below it is dead code). -/
def confirm_processing (doc_files : List FileRecord) (response : String) : Bool :=
  let readable_files := doc_files.filter (fun f => f.is_readable)
  if readable_files.isEmpty then false
  else
    let r := pyStrip (pyLower response)
    if r = "y" ∨ r = "yes" then true
    else if r = "n" ∨ r = "no" then false
    else true

/-- The per-file loop of `IngestionPipeline.process_document_files`
(pipeline.py lines 125-147): each file's processing outcome (the
`process_single_file` return value, or the raised exception's message) is an
input; a success is appended to `processed_files`, a failure to
`failed_files`, in loop order. -/
def processFilesLoop :
    List (FileRecord × Except String LoadPdfResult) →
      List (FileRecord × LoadPdfResult) × List (FileRecord × String)
  | [] => ([], [])
  | (f, Except.ok r) :: rest =>
    let out := processFilesLoop rest
    ((f, r) :: out.1, out.2)
  | (f, Except.error e) :: rest =>
    let out := processFilesLoop rest
    (out.1, (f, e) :: out.2)

/-- `IngestionPipeline.process_document_files` (lines 112-147): filter to
the readable files, then run the per-file loop. -/
def process_document_files (doc_files : List (FileRecord × Except String LoadPdfResult)) :
    List (FileRecord × LoadPdfResult) × List (FileRecord × String) :=
  processFilesLoop (doc_files.filter (fun p => p.1.is_readable))

/-- The counts reported by `IngestionPipeline.show_final_summary`. -/
structure FinalSummary where
  processed_count : Nat
  failed_count : Nat
  deriving Repr, DecidableEq

/-- `IngestionPipeline.run_ingestion` (pipeline.py lines 20-54): stop if no
valid file was discovered, stop if the confirmation gate declines, else
process every readable file and always show the final summary. -/
def run_ingestion (doc_files : List (FileRecord × Except String LoadPdfResult))
    (response : String) : Option FinalSummary :=
  if doc_files.isEmpty then none
  else if confirm_processing (doc_files.map (fun p => p.1)) response = false then none
  else
    let out := process_document_files doc_files
    some { processed_count := out.1.length, failed_count := out.2.length }

/-- Does `pat` start the list `s`?  (Helper for locating substring
occurrences, on explicit character lists.) -/
def startsWithL : List Char → List Char → Bool
  | [], _ => true
  | _ :: _, [] => false
  | p :: ps, c :: cs => if p = c then startsWithL ps cs else false

/-- Does `pat` occur contiguously anywhere in `s`? -/
def occursIn (pat : List Char) : List Char → Bool
  | [] => pat.isEmpty
  | c :: rest => startsWithL pat (c :: rest) || occursIn pat rest

/-- The scan of Python `str.replace(pat, rep)`: left to right, replacing
each non-overlapping occurrence.  The explicit fuel argument (one unit per
consumed character, so the caller's `s.length` always suffices) keeps the
recursion structural. -/
def pyReplaceAux (pat rep : List Char) : Nat → List Char → List Char
  | _, [] => []
  | 0, s => s
  | fuel + 1, c :: rest =>
    if pat ≠ [] ∧ startsWithL pat (c :: rest) = true then
      rep ++ pyReplaceAux pat rep fuel (rest.drop (pat.length - 1))
    else c :: pyReplaceAux pat rep fuel rest

/-- Python `str.replace(pat, rep)` on character lists.  The caller below
always passes a non-empty pattern; an empty pattern is a no-op here. -/
def pyReplace (pat rep s : List Char) : List Char := pyReplaceAux pat rep s.length s

/-- The characters of the pattern `".pdf"`. -/
def pdfPat : List Char := ['.', 'p', 'd', 'f']

/-- The summary-name computation of `IngestionPipeline.save_processed_data`
(pipeline.py lines 208-209):
`file_name = file_info['name'].replace('.pdf', '')` followed by
`f"{file_name}_summary.json"`. -/
def summary_file_name (name : String) : String :=
  String.mk (pyReplace pdfPat [] name.toList) ++ "_summary.json"

/-- A concrete image whose OCR call raises, for the C9 witness. -/
def sampleImgErr : PdfImage := ⟨200, 200, 3, 0, Except.ok (), Except.error "engine crash"⟩

/-- A concrete image whose OCR output has no recognized words. -/
def sampleImgNoWords : PdfImage := ⟨200, 200, 3, 0, Except.ok (), Except.ok []⟩

/-- A concrete PDF path under the configured data directory. -/
def samplePdfPath : String := "./data/pdfs/doc1.pdf"

/-- The saved-image path for page 0 / image 1 of `samplePdfPath`. -/
def sampleImgPath : String := imageFilePath defaultConfig (pathStem samplePdfPath) 0 1

/-- A readable sample file record, as discovery would produce for a PDF. -/
def sampleReadableRecord : FileRecord :=
  { path := "./data/pdfs/doc1.pdf", name := "doc1.pdf", extension := ".pdf",
    size_bytes := 0, size_mb := roundTo2 (((0 : Nat) : ℚ) / (1024 * 1024)),
    modified := 0, is_readable := true }

/-- The stat outcome for an existing, readable file named `X.PDF`. -/
def sampleStatUpper : FsFileStat :=
  { path := "./data/pdfs/X.PDF", present := true, is_file := true, stat_ok := true,
    size_bytes := 0, mtime := 0, readable := true }

/-- The record `get_file_info` builds for `sampleStatUpper`. -/
def sampleRecordUpper : FileRecord :=
  { path := "./data/pdfs/X.PDF", name := "X.PDF", extension := ".PDF",
    size_bytes := 0, size_mb := roundTo2 (((0 : Nat) : ℚ) / (1024 * 1024)),
    modified := 0, is_readable := true }

/-- A one-file batch whose only file fails during processing. -/
def sampleFailedBatch : List (FileRecord × Except String LoadPdfResult) :=
  [(sampleReadableRecord, Except.error "PDF processing failed: boom")]

lemma collectValid_fst (m : Int) (l : List TessWord) :
    (collectValid m l).1 = (specAcceptedWords m l).map (fun w => pyStrip w.text) := by
  induction l with
  | nil => rfl
  | cons w rest ih =>
    by_cases h : m < w.conf ∧ pyStrip w.text ≠ "" <;>
      simp [collectValid, specAcceptedWords, List.filter_cons, h] at ih ⊢ <;> simp [ih]

lemma collectValid_snd_word (m : Int) (l : List TessWord) :
    (collectValid m l).2.map (fun d => d.word)
      = (specAcceptedWords m l).map (fun w => pyStrip w.text) := by
  induction l with
  | nil => rfl
  | cons w rest ih =>
    by_cases h : m < w.conf ∧ pyStrip w.text ≠ "" <;>
      simp [collectValid, specAcceptedWords, List.filter_cons, h] at ih ⊢ <;> simp [ih]

lemma collectValid_snd_conf (m : Int) (l : List TessWord) :
    (collectValid m l).2.map (fun d => d.confidence)
      = (specAcceptedWords m l).map (fun w => w.conf) := by
  induction l with
  | nil => rfl
  | cons w rest ih =>
    by_cases h : m < w.conf ∧ pyStrip w.text ≠ "" <;>
      simp [collectValid, specAcceptedWords, List.filter_cons, h] at ih ⊢ <;> simp [ih]

lemma collectValid_snd_length (m : Int) (l : List TessWord) :
    (collectValid m l).2.length = (specAcceptedWords m l).length := by
  have h := congrArg List.length (collectValid_snd_conf m l)
  simpa using h

lemma collectValid_fst_length (m : Int) (l : List TessWord) :
    (collectValid m l).1.length = (specAcceptedWords m l).length := by
  have h := congrArg List.length (collectValid_fst m l)
  simpa using h

lemma run_ocr_words_eq (m : Int) (l : List TessWord) :
    run_ocr_words m l = (specAcceptedWords m l).map (fun w => pyStrip w.text) := by
  induction l with
  | nil => rfl
  | cons w rest ih =>
    by_cases h : m < w.conf ∧ pyStrip w.text ≠ "" <;>
      simp [run_ocr_words, specAcceptedWords, List.filter_cons, h] at ih ⊢ <;> simp [ih]

/-- C1: for every OCR engine output (parallel word and confidence arrays) and
every integer threshold, `OCRProcessor.process_image` accepts a word iff its
integer confidence is strictly greater than `min_confidence` and its trimmed
form is non-empty (a word exactly at the threshold is rejected); the result
text is the accepted words joined with a single space in engine order; and
the mean confidence is the arithmetic mean of the accepted words'
confidences, equal to 0 when no word is accepted (no division by zero). -/
theorem c1_process_image_acceptance (m : Int) (p : String) (data : List TessWord) :
    (process_image m p data).word_details.map (fun d => d.word)
        = (specAcceptedWords m data).map (fun w => pyStrip w.text)
    ∧ (process_image m p data).word_details.map (fun d => d.confidence)
        = (specAcceptedWords m data).map (fun w => w.conf)
    ∧ (process_image m p data).extracted_text
        = String.intercalate " " ((specAcceptedWords m data).map (fun w => pyStrip w.text))
    ∧ (process_image m p data).word_count = (specAcceptedWords m data).length
    ∧ (process_image m p data).average_confidence
        = (if (specAcceptedWords m data).length = 0 then 0
           else (((specAcceptedWords m data).map (fun w => w.conf)).sum : ℚ)
             / ((specAcceptedWords m data).length : ℚ)) := by
  have hw := collectValid_snd_word m data
  have hc := collectValid_snd_conf m data
  have hl := collectValid_snd_length m data
  have hf := collectValid_fst m data
  have hfl := collectValid_fst_length m data
  have hnil : (collectValid m data).2 = [] ↔ (specAcceptedWords m data).length = 0 := by
    rw [← hl, List.length_eq_zero]
  refine ⟨by simpa [process_image] using hw, by simpa [process_image] using hc, ?_, ?_, ?_⟩
  · simp only [process_image]
    rw [hf]
  · simp only [process_image]
    rw [hfl]
  · simp only [process_image]
    by_cases h0 : (specAcceptedWords m data).length = 0
    · rw [if_pos (hnil.mpr h0), if_pos h0]
    · have hcast : (collectValid m data).2.map (fun d => (d.confidence : ℚ))
          = (specAcceptedWords m data).map (fun w => (w.conf : ℚ)) := by
        have h2 := congrArg (List.map (fun z : Int => (z : ℚ))) hc
        simpa [List.map_map, Function.comp] using h2
      rw [if_neg (fun hh => h0 (hnil.mp hh)), if_neg h0, hcast, hl]

lemma filter_useful_images_fst (mw mc : Nat) (results : List OCRResult) (fs : Finset String) :
    (filter_useful_images mw mc results fs).1
      = results.filter (fun r => decide (usefulResult mw mc r)) := by
  induction results generalizing fs with
  | nil => rfl
  | cons r rest ih =>
    by_cases h : usefulResult mw mc r <;>
      simp [filter_useful_images, List.filter_cons, h, ih]

lemma filter_useful_images_snd (mw mc : Nat) (results : List OCRResult) (fs : Finset String) :
    (filter_useful_images mw mc results fs).2
      = fs \ ((results.filter (fun r => decide (¬ usefulResult mw mc r))).map
          (fun r => r.image_path)).toFinset := by
  induction results generalizing fs with
  | nil => simp [filter_useful_images]
  | cons r rest ih =>
    by_cases h : usefulResult mw mc r
    · simp [filter_useful_images, List.filter_cons, h, ih]
    · have herase : (if r.image_path ∈ fs then fs.erase r.image_path else fs)
          = fs.erase r.image_path := by
        by_cases hm : r.image_path ∈ fs
        · rw [if_pos hm]
        · rw [if_neg hm, Finset.erase_eq_of_not_mem hm]
      simp only [filter_useful_images, if_neg h, herase, ih, List.filter_cons]
      simp only [h, decide_not, decide_False, Bool.not_false, if_pos, List.map_cons,
        List.toFinset_cons]
      rw [Finset.erase_eq, sdiff_sdiff, Finset.sup_eq_union, Finset.insert_eq]

/-- C3: `filter_useful_images` keeps a result iff `has_text` is true and
`word_count ≥ min_words` and `char_count ≥ min_chars` (defaults 3 and 10);
and the resulting filesystem is the old one minus exactly the backing image
paths of the rejected results — every rejected result whose image file still
exists is deleted as a side effect. -/
theorem c3_filter_useful_keeps_and_deletes (mw mc : Nat) (results : List OCRResult)
    (fs : Finset String) :
    (filter_useful_images mw mc results fs).1
        = results.filter (fun r => decide (usefulResult mw mc r))
    ∧ (filter_useful_images mw mc results fs).2
        = fs \ ((results.filter (fun r => decide (¬ usefulResult mw mc r))).map
            (fun r => r.image_path)).toFinset :=
  ⟨filter_useful_images_fst mw mc results fs, filter_useful_images_snd mw mc results fs⟩

lemma filter_useful_images_of_all_useful (mw mc : Nat) (results : List OCRResult)
    (fs : Finset String) (h : ∀ r ∈ results, usefulResult mw mc r) :
    filter_useful_images mw mc results fs = (results, fs) := by
  induction results with
  | nil => rfl
  | cons r rest ih =>
    have hr : usefulResult mw mc r := h r (List.mem_cons_self r rest)
    have hrest : ∀ x ∈ rest, usefulResult mw mc x := fun x hx => h x (List.mem_cons_of_mem r hx)
    simp [filter_useful_images, hr, ih hrest]

/-- C4: `filter_useful_images` is idempotent on its accept set: re-running it
on the already-filtered list with the same thresholds returns that list
unchanged and deletes no image file (the filesystem is returned as-is). -/
theorem c4_filter_useful_idempotent (mw mc : Nat) (results : List OCRResult)
    (fs fs2 : Finset String) :
    filter_useful_images mw mc (filter_useful_images mw mc results fs).1 fs2
      = ((filter_useful_images mw mc results fs).1, fs2) := by
  apply filter_useful_images_of_all_useful
  intro r hr
  rw [filter_useful_images_fst] at hr
  have := List.of_mem_filter hr
  simpa using this

/-- C10: for the same engine output and the same threshold,
`PDFLoader._run_ocr_on_image` computes exactly the `extracted_text` field of
`OCRProcessor.process_image`: both select the words with integer confidence
strictly greater than the threshold and non-empty trimmed form, and join
their trimmed forms with single spaces in engine order. -/
theorem c10_run_ocr_matches_process_image (m : Int) (p : String) (data : List TessWord) :
    run_ocr_on_image m data = (process_image m p data).extracted_text := by
  simp only [run_ocr_on_image, process_image]
  rw [run_ocr_words_eq, collectValid_fst]

lemma textDocsLoop_content (pdf_path : String) (pages : List String) :
    ∀ i, ∀ d ∈ textDocsLoop pdf_path pages i, pyStrip d.page_content ≠ "" := by
  induction pages with
  | nil => intro i d hd; simp [textDocsLoop] at hd
  | cons c rest ih =>
    intro i d hd
    by_cases h : pyStrip c ≠ ""
    · rw [textDocsLoop, if_pos h] at hd
      rcases List.mem_cons.mp hd with rfl | hd
      · simpa using h
      · exact ih (i + 1) d hd
    · rw [textDocsLoop, if_neg h] at hd
      exact ih (i + 1) d hd

lemma load_text_with_pypdf_content (cfg : Config) (pdf_path : String)
    (loaded : Except String (List String)) :
    ∀ d ∈ load_text_with_pypdf cfg pdf_path loaded, pyStrip d.page_content ≠ "" := by
  cases loaded with
  | error e => intro d hd; simp [load_text_with_pypdf] at hd
  | ok documents =>
    intro d hd
    simp only [load_text_with_pypdf] at hd
    exact textDocsLoop_content pdf_path _ 0 d hd

lemma process_pdf_image_some_content (cfg : Config) (pdf_path : String)
    (page_num idx : Nat) (img : PdfImage) (fs : Finset String) (d : Document)
    (hd : (process_pdf_image cfg pdf_path page_num idx img fs).1 = some d) :
    pyStrip d.page_content ≠ "" := by
  obtain ⟨w, h, nch, al, ps, ocr⟩ := img
  cases ps with
  | error e =>
    simp only [process_pdf_image] at hd
    split_ifs at hd
  | ok u =>
    simp only [process_pdf_image] at hd
    split_ifs at hd with h1 h2
    rw [show ∀ (a : Option Document) (b : Finset String), (a, b).1 = a from fun _ _ => rfl,
      Option.some.injEq] at hd
    subst hd
    simpa using h2

lemma pageImagesLoop_content (cfg : Config) (pdf_path : String) (page_num : Nat)
    (imgs : List PdfImage) :
    ∀ idx fs, ∀ d ∈ (pageImagesLoop cfg pdf_path page_num imgs idx fs).1,
      pyStrip d.page_content ≠ "" := by
  induction imgs with
  | nil => intro idx fs d hd; simp [pageImagesLoop] at hd
  | cons img rest ih =>
    intro idx fs d hd
    simp only [pageImagesLoop] at hd
    split at hd
    · rename_i dd heq
      rcases List.mem_cons.mp hd with rfl | hd
      · exact process_pdf_image_some_content cfg pdf_path page_num idx img fs d heq
      · exact ih (idx + 1) _ d hd
    · exact ih (idx + 1) _ d hd

lemma pdfPagesLoop_content (cfg : Config) (pdf_path : String)
    (pages : List (List PdfImage)) :
    ∀ pn fs, ∀ d ∈ (pdfPagesLoop cfg pdf_path pages pn fs).1,
      pyStrip d.page_content ≠ "" := by
  induction pages with
  | nil => intro pn fs d hd; simp [pdfPagesLoop] at hd
  | cons imgs rest ih =>
    intro pn fs d hd
    simp only [pdfPagesLoop] at hd
    rcases List.mem_append.mp hd with hd | hd
    · exact pageImagesLoop_content cfg pdf_path pn imgs 1 fs d hd
    · exact ih (pn + 1) _ d hd

lemma load_images_with_ocr_content (cfg : Config) (pdf_path : String)
    (pdf : Except String (List (List PdfImage))) (fs : Finset String) :
    ∀ d ∈ (load_images_with_ocr cfg pdf_path pdf fs).1, pyStrip d.page_content ≠ "" := by
  cases pdf with
  | error e => intro d hd; simp [load_images_with_ocr] at hd
  | ok pages =>
    intro d hd
    simp only [load_images_with_ocr] at hd
    exact pdfPagesLoop_content cfg pdf_path _ 0 fs d hd

/-- C2: for every PDF processed by `PDFLoader.load_pdf`, the text and the
image document counts add up to the total count, the documents list is
exactly the text documents followed by the image documents (each stream's
internal order preserved), and every returned document has non-empty content
after trimming. -/
theorem c2_load_pdf_invariants (cfg : Config) (pdf_path : String)
    (textLoad : Except String (List String))
    (imageLoad : Except String (List (List PdfImage))) (fs : Finset String) :
    (load_pdf cfg pdf_path textLoad imageLoad fs).1.text_document_count
        + (load_pdf cfg pdf_path textLoad imageLoad fs).1.image_document_count
      = (load_pdf cfg pdf_path textLoad imageLoad fs).1.total_document_count
    ∧ (load_pdf cfg pdf_path textLoad imageLoad fs).1.documents
        = load_text_with_pypdf cfg pdf_path textLoad
            ++ (load_images_with_ocr cfg pdf_path imageLoad fs).1
    ∧ ((load_pdf cfg pdf_path textLoad imageLoad fs).1.documents.all
        (fun d => decide (pyStrip d.page_content ≠ ""))) = true := by
  refine ⟨?_, ?_, ?_⟩
  · simp [load_pdf]
  · simp [load_pdf]
  · rw [List.all_eq_true]
    intro d hd
    simp only [load_pdf, List.mem_append] at hd
    rcases hd with hd | hd
    · simpa using load_text_with_pypdf_content cfg pdf_path textLoad d hd
    · simpa using load_images_with_ocr_content cfg pdf_path imageLoad fs d hd

/-- C9: in the PDF image pipeline, if the OCR step raises for an
already-saved image, `_run_ocr_on_image` returns the empty string; the
just-saved image file is deleted from disk and no document is produced; the
outcome is identical to that of an image whose OCR output has no recognized
words; and the per-page image loop simply continues with the next image. -/
theorem c9_ocr_failure_on_saved_image (cfg : Config) (pdf_path : String)
    (page_num idx : Nat) (w h nch al : Nat) (e : String) (fs : Finset String)
    (rest : List PdfImage)
    (hw : cfg.MIN_IMAGE_WIDTH ≤ w) (hh : cfg.MIN_IMAGE_HEIGHT ≤ h) :
    run_ocr_on_image_caught 50 (Except.error e) = ""
    ∧ process_pdf_image cfg pdf_path page_num idx
          ⟨w, h, nch, al, Except.ok (), Except.error e⟩ fs
        = process_pdf_image cfg pdf_path page_num idx
            ⟨w, h, nch, al, Except.ok (), Except.ok []⟩ fs
    ∧ process_pdf_image cfg pdf_path page_num idx
          ⟨w, h, nch, al, Except.ok (), Except.error e⟩ fs
        = (none, (insert (imageFilePath cfg (pathStem pdf_path) page_num idx) fs).erase
            (imageFilePath cfg (pathStem pdf_path) page_num idx))
    ∧ imageFilePath cfg (pathStem pdf_path) page_num idx
        ∉ (process_pdf_image cfg pdf_path page_num idx
            ⟨w, h, nch, al, Except.ok (), Except.error e⟩ fs).2
    ∧ pageImagesLoop cfg pdf_path page_num
          (⟨w, h, nch, al, Except.ok (), Except.error e⟩ :: rest) idx fs
        = pageImagesLoop cfg pdf_path page_num rest (idx + 1)
            ((insert (imageFilePath cfg (pathStem pdf_path) page_num idx) fs).erase
              (imageFilePath cfg (pathStem pdf_path) page_num idx)) := by
  have hsz : ¬(w < cfg.MIN_IMAGE_WIDTH ∨ h < cfg.MIN_IMAGE_HEIGHT) := by
    push_neg
    exact ⟨hw, hh⟩
  have htrim : pyStrip "" = "" := by decide
  have hempty : run_ocr_on_image 50 ([] : List TessWord) = "" := by decide
  have hkey : process_pdf_image cfg pdf_path page_num idx
      ⟨w, h, nch, al, Except.ok (), Except.error e⟩ fs
      = (none, (insert (imageFilePath cfg (pathStem pdf_path) page_num idx) fs).erase
          (imageFilePath cfg (pathStem pdf_path) page_num idx)) := by
    simp [process_pdf_image, hsz, run_ocr_on_image_caught, htrim, Finset.mem_insert_self]
  have hkey2 : process_pdf_image cfg pdf_path page_num idx
      ⟨w, h, nch, al, Except.ok (), Except.ok []⟩ fs
      = (none, (insert (imageFilePath cfg (pathStem pdf_path) page_num idx) fs).erase
          (imageFilePath cfg (pathStem pdf_path) page_num idx)) := by
    simp [process_pdf_image, hsz, run_ocr_on_image_caught, hempty, htrim,
      Finset.mem_insert_self]
  refine ⟨rfl, hkey.trans hkey2.symm, hkey, ?_, ?_⟩
  · rw [hkey]
    exact Finset.not_mem_erase _ _
  · simp [pageImagesLoop, hkey]

/-- Witness for C9 at a concrete input: default config, a 200-by-200 image
whose OCR call raises. -/
theorem c9_ocr_failure_on_saved_image_witness :
    (defaultConfig.MIN_IMAGE_WIDTH ≤ 200 ∧ defaultConfig.MIN_IMAGE_HEIGHT ≤ 200)
    ∧ (run_ocr_on_image_caught 50 (Except.error "engine crash") = ""
      ∧ process_pdf_image defaultConfig samplePdfPath 0 1 sampleImgErr (∅ : Finset String)
          = process_pdf_image defaultConfig samplePdfPath 0 1 sampleImgNoWords (∅ : Finset String)
      ∧ process_pdf_image defaultConfig samplePdfPath 0 1 sampleImgErr (∅ : Finset String)
          = (none, (insert sampleImgPath (∅ : Finset String)).erase sampleImgPath)
      ∧ sampleImgPath ∉
          (process_pdf_image defaultConfig samplePdfPath 0 1 sampleImgErr (∅ : Finset String)).2
      ∧ pageImagesLoop defaultConfig samplePdfPath 0 [sampleImgErr] 1 (∅ : Finset String)
          = pageImagesLoop defaultConfig samplePdfPath 0 [] 2
              ((insert sampleImgPath (∅ : Finset String)).erase sampleImgPath)) := by
  refine ⟨⟨by decide, by decide⟩, ?_⟩
  have h := c9_ocr_failure_on_saved_image defaultConfig samplePdfPath 0 1 200 200 3 0
      "engine crash" (∅ : Finset String) [] (by decide) (by decide)
  simpa only [sampleImgErr, sampleImgNoWords, sampleImgPath] using h

/-- C5 (code bug): the confirmation gate returns `True` — processing
proceeds — for the answer "maybe", which is not an explicit affirmative:
the final `else` branch of the loop in `confirm_processing` returns `True`,
and the re-prompt `print` after it is dead code. -/
theorem c5_confirm_gate_accepts_invalid_answer :
    confirm_processing [sampleReadableRecord] "maybe" = true
    ∧ pyStrip (pyLower "maybe") ≠ "y" ∧ pyStrip (pyLower "maybe") ≠ "yes"
    ∧ pyStrip (pyLower "maybe") ≠ "n" ∧ pyStrip (pyLower "maybe") ≠ "no" := by
  decide

lemma startsWithL_append_of_long (pat : List Char) :
    ∀ (s t : List Char), pat.length ≤ s.length →
      startsWithL pat (s ++ t) = startsWithL pat s := by
  induction pat with
  | nil => intro s t _; simp [startsWithL]
  | cons p ps ih =>
    intro s t hlen
    cases s with
    | nil => simp at hlen
    | cons c cs =>
      simp only [List.cons_append, startsWithL]
      by_cases hpc : p = c
      · rw [if_pos hpc, if_pos hpc]
        exact ih cs t (by simpa using hlen)
      · rw [if_neg hpc, if_neg hpc]

lemma not_startsWith_boundary (s : List Char) (hne : s ≠ [])
    (hocc : occursIn pdfPat s = false) :
    startsWithL pdfPat (s ++ pdfPat) = false := by
  cases s with
  | nil => exact absurd rfl hne
  | cons a s1 =>
    cases s1 with
    | nil => simp [pdfPat, startsWithL]
    | cons b s2 =>
      cases s2 with
      | nil => simp [pdfPat, startsWithL]
      | cons c s3 =>
        cases s3 with
        | nil => simp [pdfPat, startsWithL]
        | cons d s4 =>
          have h4 : pdfPat.length ≤ (a :: b :: c :: d :: s4).length := by
            simp [pdfPat]
          rw [startsWithL_append_of_long pdfPat _ pdfPat h4]
          have hsplit := Bool.or_eq_false_iff.mp
            (show (startsWithL pdfPat (a :: b :: c :: d :: s4)
                || occursIn pdfPat (b :: c :: d :: s4)) = false from hocc)
          exact hsplit.1

lemma pyReplaceAux_strip (stem : List Char) :
    ∀ fuel, (stem ++ pdfPat).length ≤ fuel → occursIn pdfPat stem = false →
      pyReplaceAux pdfPat [] fuel (stem ++ pdfPat) = stem := by
  induction stem with
  | nil =>
    intro fuel hfuel _
    obtain ⟨f, rfl⟩ : ∃ f, fuel = f + 1 :=
      ⟨fuel - 1, by simp [pdfPat] at hfuel; omega⟩
    simp [pdfPat, pyReplaceAux, startsWithL]
  | cons a stem ih =>
    intro fuel hfuel hocc
    obtain ⟨f, rfl⟩ : ∃ f, fuel = f + 1 :=
      ⟨fuel - 1, by simp at hfuel; omega⟩
    have hsplit := Bool.or_eq_false_iff.mp
      (show (startsWithL pdfPat (a :: stem) || occursIn pdfPat stem) = false from hocc)
    have hsw : startsWithL pdfPat ((a :: stem) ++ pdfPat) = false :=
      not_startsWith_boundary (a :: stem) (by simp) hocc
    have hcond : ¬(pdfPat ≠ [] ∧ startsWithL pdfPat (a :: (stem ++ pdfPat)) = true) := by
      rintro ⟨-, hc⟩
      rw [List.cons_append] at hsw
      rw [hsw] at hc
      exact Bool.false_ne_true hc
    rw [List.cons_append, pyReplaceAux, if_neg hcond]
    have hlen : (stem ++ pdfPat).length ≤ f := by
      simp at hfuel ⊢
      omega
    rw [ih f hlen hsplit.2]

/-- C6 counterexample: for the on-disk file name `a.pdfb.pdf` — whose stem
contains the substring `.pdf` — `save_processed_data` removes the interior
occurrence too, so the summary name is `ab_summary.json`, not the
`a.pdfb_summary.json` that stripping only the trailing suffix would give. -/
theorem c6_counterexample_interior_pdf :
    summary_file_name "a.pdfb.pdf" = "ab_summary.json"
    ∧ summary_file_name "a.pdfb.pdf" ≠ "a.pdfb" ++ "_summary.json" := by
  decide

/-- C6 amended: the persisted summary name is the original file name with
every occurrence of the substring `.pdf` removed, then `_summary.json`
appended.  In particular, when `.pdf` occurs only as the trailing suffix
(the stem does not contain `.pdf`), this coincides with stripping the
suffix, as the claim states. -/
theorem c6_summary_name_strips_all_pdf (stem : String)
    (h : occursIn pdfPat stem.toList = false) :
    summary_file_name (stem ++ ".pdf") = stem ++ "_summary.json" := by
  unfold summary_file_name pyReplace
  have hlist : (stem ++ ".pdf").toList = stem.toList ++ pdfPat := by
    show (stem ++ ".pdf").data = stem.data ++ pdfPat
    rw [String.data_append]
    rfl
  rw [hlist, pyReplaceAux_strip stem.toList _ le_rfl h]
  rfl

/-- Witness for the amended C6 at the typical name `report.pdf`. -/
theorem c6_summary_name_strips_all_pdf_witness :
    occursIn pdfPat "report".toList = false
    ∧ summary_file_name ("report" ++ ".pdf") = "report" ++ "_summary.json" :=
  ⟨by decide, c6_summary_name_strips_all_pdf "report" (by decide)⟩

/-- C7 counterexample: for a file named `X.PDF`, `get_file_info` stores the
extension `.PDF` verbatim — not the lower-cased `.pdf` the claim states. -/
theorem c7_counterexample_uppercase_extension :
    (get_file_info sampleStatUpper [".pdf"]).map (fun r => r.extension) = some ".PDF"
    ∧ (".PDF" : String) ≠ ".pdf" := by
  decide

/-- C7 amended: `get_file_info` stores the file's suffix exactly as it
appears on disk (case preserved); lower-casing is applied only in the
allow-list comparison, so a file accepted against `['.pdf']` may still carry
an upper-case extension in its record. -/
theorem c7_extension_stored_verbatim (st : FsFileStat) (exts : List String)
    (rec : FileRecord) (h : get_file_info st exts = some rec) :
    rec.extension = pathSuffix st.path
    ∧ (exts ≠ [] → pyLower (pathSuffix st.path) ∈ exts.map (fun e => pyLower e)) := by
  unfold get_file_info at h
  split_ifs at h with h1 h2 h3 h4
  rw [Option.some.injEq] at h
  subst h
  refine ⟨rfl, ?_⟩
  intro hne
  rcases not_and_or.mp h3 with hc | hc
  · exact absurd hne hc
  · exact not_not.mp hc

/-- Witness for the amended C7 at the concrete stat of `X.PDF`. -/
theorem c7_extension_stored_verbatim_witness :
    get_file_info sampleStatUpper [".pdf"] = some sampleRecordUpper
    ∧ (sampleRecordUpper.extension = pathSuffix sampleStatUpper.path
      ∧ ([".pdf"] ≠ ([] : List String) →
          pyLower (pathSuffix sampleStatUpper.path)
            ∈ [".pdf"].map (fun e => pyLower e))) := by
  have heq : get_file_info sampleStatUpper [".pdf"] = some sampleRecordUpper := by rfl
  exact ⟨heq, c7_extension_stored_verbatim sampleStatUpper [".pdf"] sampleRecordUpper heq⟩

lemma processFilesLoop_ok (files : List (FileRecord × Except String LoadPdfResult)) :
    (processFilesLoop files).1
      = files.filterMap (fun p =>
          match p.2 with
          | Except.ok r => some (p.1, r)
          | Except.error _ => none) := by
  induction files with
  | nil => rfl
  | cons p rest ih =>
    obtain ⟨f, o⟩ := p
    cases o <;> simp [processFilesLoop, List.filterMap_cons, ih]

lemma processFilesLoop_err (files : List (FileRecord × Except String LoadPdfResult)) :
    (processFilesLoop files).2
      = files.filterMap (fun p =>
          match p.2 with
          | Except.ok _ => none
          | Except.error e => some (p.1, e)) := by
  induction files with
  | nil => rfl
  | cons p rest ih =>
    obtain ⟨f, o⟩ := p
    cases o <;> simp [processFilesLoop, List.filterMap_cons, ih]

lemma processFilesLoop_length (files : List (FileRecord × Except String LoadPdfResult)) :
    (processFilesLoop files).1.length + (processFilesLoop files).2.length
      = files.length := by
  induction files with
  | nil => rfl
  | cons p rest ih =>
    obtain ⟨f, o⟩ := p
    cases o <;> simp [processFilesLoop] <;> omega

/-- C8: the orchestrator processes every readable file regardless of any
individual failure: each readable file is recorded exactly once, as a
success with its extraction result when processing returns, or as a failure
with the error message when it raises; the two records partition the
readable files in order; and whenever the processing loop runs (files were
found and the gate confirmed), the final summary is emitted — even when
every file failed. -/
theorem c8_batch_never_aborts (files : List (FileRecord × Except String LoadPdfResult))
    (resp : String) (hne : files ≠ [])
    (hc : confirm_processing (files.map (fun p => p.1)) resp = true) :
    (process_document_files files).1.length + (process_document_files files).2.length
        = (files.filter (fun p => p.1.is_readable)).length
    ∧ (process_document_files files).1
        = (files.filter (fun p => p.1.is_readable)).filterMap (fun p =>
            match p.2 with
            | Except.ok r => some (p.1, r)
            | Except.error _ => none)
    ∧ (process_document_files files).2
        = (files.filter (fun p => p.1.is_readable)).filterMap (fun p =>
            match p.2 with
            | Except.ok _ => none
            | Except.error e => some (p.1, e))
    ∧ run_ingestion files resp
        = some { processed_count := (process_document_files files).1.length,
                 failed_count := (process_document_files files).2.length } := by
  refine ⟨processFilesLoop_length _, processFilesLoop_ok _, processFilesLoop_err _, ?_⟩
  unfold run_ingestion
  rw [if_neg (by simpa using hne), if_neg (by simp [hc])]

/-- Witness for C8 on a confirmed one-file batch whose only file fails:
the file is recorded once as a failure and the summary is still emitted. -/
theorem c8_batch_never_aborts_witness :
    (sampleFailedBatch ≠ []
      ∧ confirm_processing (sampleFailedBatch.map (fun p => p.1)) "y" = true)
    ∧ ((process_document_files sampleFailedBatch).1.length
          + (process_document_files sampleFailedBatch).2.length
        = (sampleFailedBatch.filter (fun p => p.1.is_readable)).length
      ∧ (process_document_files sampleFailedBatch).1
          = (sampleFailedBatch.filter (fun p => p.1.is_readable)).filterMap (fun p =>
              match p.2 with
              | Except.ok r => some (p.1, r)
              | Except.error _ => none)
      ∧ (process_document_files sampleFailedBatch).2
          = (sampleFailedBatch.filter (fun p => p.1.is_readable)).filterMap (fun p =>
              match p.2 with
              | Except.ok _ => none
              | Except.error e => some (p.1, e))
      ∧ run_ingestion sampleFailedBatch "y"
          = some { processed_count := (process_document_files sampleFailedBatch).1.length,
                   failed_count := (process_document_files sampleFailedBatch).2.length }) := by
  have hne : sampleFailedBatch ≠ [] := by simp [sampleFailedBatch]
  have hc : confirm_processing (sampleFailedBatch.map (fun p => p.1)) "y" = true := by
    decide
  exact ⟨⟨hne, hc⟩, c8_batch_never_aborts sampleFailedBatch "y" hne hc⟩

end QaCompanion
